import Mathlib

/-!
Verification of the weather-forecasting batch pipeline
(Notebooks_and_Scripts/notebook.ipynb) against its design specification.

The pipeline works on a single wide table. Rows carry a partition key
(the kingdom column, modelled as a natural number) and numeric feature
values that may be missing (pandas NaN, modelled as Option ℚ). The
engineered columns are:
  * lag features: df.groupby(kingdom)[col].shift(k)  for k in LAGS,
  * rolling statistics over the flat lag-1 column
      shifted = df.groupby(kingdom)[col].shift(1)
      shifted.rolling(window=w, min_periods=max(1, w // 2)).mean()/std()/...
    (note: shifted is a plain Series, so the rolling window runs over the
    whole sorted table, not per group),
  * lag-difference columns lag_1 - lag_7 and lag_7 - lag_30,
  * the Kelvin-threshold temperature fix,
  * the per-kingdom latitude/longitude overwrite
      df[df.is_test == 0].groupby(kingdom)[[lat, lon]].first(),
  * the canonical sort df.sort_values([kingdom, datetime], na_position=first),
  * the per-target training loop with its empty-training fallback, and
  * the wind-direction reconstruction degrees(arctan2(sin, cos)) % 360.

Floating-point numbers are idealised as ℚ (exact arithmetic) except for
the trigonometric reconstruction, which is idealised over ℝ.
-/

namespace DataCrunch

/-- A cell of a numeric pandas column: NaN is `none`. -/
abbrev Val := Option ℚ

/-- One row of the sorted table, restricted to what the grouped engines
read: the kingdom key and the value of one base feature column. -/
abbrev Row := ℕ × Val

/-- Source constant LAGS = [1, 3, 7, 14, 21, 30, 60]. -/
def LAGS : List ℕ := [1, 3, 7, 14, 21, 30, 60]

/-- Source constant ROLLING_WINDOWS = [3, 7, 14, 30, 60]. -/
def ROLLING_WINDOWS : List ℕ := [3, 7, 14, 30, 60]

/-- Source: min_periods=max(1, window // 2) with python integer division. -/
def minPeriods (w : ℕ) : ℕ := max 1 (w / 2)

/-- The values of one kingdom in table order: the Series of that region. -/
def regionValues (r : ℕ) (rows : List Row) : List Val :=
  (rows.filter (fun p => p.1 == r)).map Prod.snd

/-- pandas Series.shift(k) on a single series: k leading NaN cells, then
the original values, truncated to the original length. -/
def shiftList (k : ℕ) (s : List Val) : List Val :=
  (List.replicate k none ++ s).take s.length

/-- Worker for the grouped shift: walks the table in order keeping, per
kingdom, the list of values seen so far; the shifted cell of a row is the
value k positions back in the history of its own kingdom. -/
def groupedShiftGo (k : ℕ) : List Row → (ℕ → List Val) → List Val
  | [], _ => []
  | (r, v) :: rest, seen =>
    (if k = 0 then v
     else if k ≤ (seen r).length then ((seen r)[(seen r).length - k]?).join else none)
      :: groupedShiftGo k rest (fun q => if q = r then seen r ++ [v] else seen q)

/-- Embedding of df.groupby(kingdom)[col].shift(k) on the sorted table:
a column aligned with the input rows, shifted independently per kingdom. -/
def groupedShift (k : ℕ) (rows : List Row) : List Val :=
  groupedShiftGo k rows (fun _ => [])

/-- Restriction of a column `out` (aligned with `rows`) to the positions
belonging to kingdom `r`, in table order. -/
def alignedRegion (r : ℕ) (rows : List Row) (out : List Val) : List Val :=
  ((rows.zip out).filter (fun p => p.1.1 == r)).map Prod.snd

/-- Reference recursion for a shifted series built after a prefix `pre`
of already-seen values; used to relate `groupedShiftGo` to `shiftList`. -/
def buildShift (k : ℕ) : List Val → List Val → List Val
  | _, [] => []
  | pre, v :: rest =>
    (if k ≤ pre.length then (pre[pre.length - k]?).join else none)
      :: buildShift k (pre ++ [v]) rest

/-- Dropping every row of kingdom `b` from the table (the two-run region
isolation experiment of the spec). -/
def removeRegion (b : ℕ) (rows : List Row) : List Row :=
  rows.filter (fun p => !(p.1 == b))

/-- pandas subtraction of two columns: NaN if either operand is NaN. -/
def optSub : Val → Val → Val
  | some a, some b => some (a - b)
  | _, _ => none

/-- Embedding of the lag-difference columns, e.g.
df[col_lag_1] - df[col_lag_7] built from the grouped shifts. -/
def lagDiffCol (k₁ k₂ : ℕ) (rows : List Row) : List Val :=
  List.zipWith optSub (groupedShift k₁ rows) (groupedShift k₂ rows)

/-- The defined (non-NaN) values inside the trailing length-w window of a
flat series ending at position i, as pandas rolling uses them. -/
def windowVals (w : ℕ) (s : List Val) (i : ℕ) : List ℚ :=
  ((s.take (i + 1)).drop (i + 1 - w)).filterMap id

/-- Rolling mean of the defined values of a window (NaN on an empty window). -/
def meanQ (vs : List ℚ) : Val :=
  if vs.isEmpty then none else some (vs.sum / vs.length)

/-- Square of the rolling sample standard deviation (ddof = 1), i.e. the
sample variance. The source emits the square root of this quantity; since
the square root is injective on nonnegative reals, definedness and
equality facts about the std transfer verbatim to its square, which keeps
the development inside ℚ. The sample variance of fewer than two
observations is NaN (division by ddof zero), hence `none`. -/
def varQ (vs : List ℚ) : Val :=
  if vs.length ≤ 1 then none
  else some (((vs.map (fun x => (x - vs.sum / vs.length) ^ 2)).sum) / ((vs.length : ℚ) - 1))

/-- Rolling median of the defined values: middle of the sorted window, the
average of the two middle elements on an even count, NaN on an empty one. -/
def medianQ (vs : List ℚ) : Val :=
  let s := vs.insertionSort (fun a b => a ≤ b)
  if s.length % 2 = 1 then s[s.length / 2]?
  else
    match s[s.length / 2 - 1]?, s[s.length / 2]? with
    | some a, some b => some ((a + b) / 2)
    | _, _ => none

/-- Rolling minimum of the defined values of a window. -/
def minQ : List ℚ → Val
  | [] => none
  | x :: t => some (t.foldl min x)

/-- Rolling maximum of the defined values of a window. -/
def maxQ : List ℚ → Val
  | [] => none
  | x :: t => some (t.foldl max x)

/-- Embedding of shifted.rolling(window=w, min_periods=minPeriods w).f():
at each position of the flat series, apply the statistic to the defined
values of the trailing window when there are at least min_periods of
them, else NaN. -/
def rollingStat (f : List ℚ → Val) (w : ℕ) (s : List Val) : List Val :=
  (List.range s.length).map fun i =>
    if minPeriods w ≤ (windowVals w s i).length then f (windowVals w s i) else none

/-- The rolling column as the source builds it: the statistic applied to
the flat lag-1 column of the whole table. -/
def rollColumn (f : List ℚ → Val) (w : ℕ) (rows : List Row) : List Val :=
  rollingStat f w (groupedShift 1 rows)

/-- Source helper kelvin_to_celsius: temp_k - 273.15. -/
def kelvin_to_celsius (t : ℚ) : ℚ := t - 27315 / 100

/-- The temperature-conversion step applied to one cell: the source masks
the rows with a defined value strictly above 70 and applies
kelvin_to_celsius in place; every other cell is untouched. -/
def convertTemp : Val → Val
  | none => none
  | some x => if 70 < x then some (kelvin_to_celsius x) else some x

/-- The temperature-conversion step applied to a whole column. -/
def fixTempColumn (col : List Val) : List Val := col.map convertTemp

/-- Source: y_train_full.dropna() and the row selection X_train_full.loc:
keeps exactly the training rows whose target is defined. -/
def dropNaTargets (trainRows : List (List ℚ × Val)) : List (List ℚ × ℚ) :=
  trainRows.filterMap (fun p => p.2.map (fun y => (p.1, y)))

/-- Embedding of one iteration of the per-target training loop: if the
training subset is empty after dropping undefined targets, the target
column of the prediction frame is the constant 0 and the regressor is
never consulted; otherwise the fitted regressor predicts each test row. -/
def trainAndPredict (fit : List (List ℚ × ℚ) → List ℚ → ℚ)
    (trainRows : List (List ℚ × Val)) (tests : List (List ℚ)) : List ℚ :=
  let X := dropNaTargets trainRows
  if X.isEmpty then tests.map (fun _ => 0) else tests.map (fit X)

/-! Core lemmas about the grouped shift. -/

theorem groupedShiftGo_length (k : ℕ) (rows : List Row) (seen : ℕ → List Val) :
    (groupedShiftGo k rows seen).length = rows.length := by
  induction rows generalizing seen with
  | nil => rfl
  | cons p rest ih =>
    obtain ⟨r, v⟩ := p
    simp [groupedShiftGo, ih]

theorem groupedShift_length (k : ℕ) (rows : List Row) :
    (groupedShift k rows).length = rows.length :=
  groupedShiftGo_length k rows _

theorem go_aligned (k : ℕ) (hk : 1 ≤ k) (rows : List Row) (seen : ℕ → List Val) (r : ℕ) :
    alignedRegion r rows (groupedShiftGo k rows seen)
      = buildShift k (seen r) (regionValues r rows) := by
  induction rows generalizing seen with
  | nil => simp [alignedRegion, groupedShiftGo, regionValues, buildShift]
  | cons p rest ih =>
    obtain ⟨r₀, v⟩ := p
    have hk0 : ¬ k = 0 := by omega
    have htail := ih (fun q => if q = r₀ then seen r₀ ++ [v] else seen q)
    by_cases h : r₀ = r
    · subst h
      rw [if_pos rfl] at htail
      have hrv : regionValues r₀ ((r₀, v) :: rest) = v :: regionValues r₀ rest := by
        simp [regionValues]
      rw [hrv, buildShift]
      unfold groupedShiftGo alignedRegion
      rw [if_neg hk0]
      simp only [List.zip_cons_cons, List.filter_cons, beq_self_eq_true, if_pos,
        List.map_cons]
      exact congrArg₂ List.cons rfl htail
    · rw [if_neg (by omega : ¬ r = r₀)] at htail
      have hbe : (r₀ == r) = false := by simp [h]
      have hrv : regionValues r ((r₀, v) :: rest) = regionValues r rest := by
        simp [regionValues, hbe]
      rw [hrv]
      unfold groupedShiftGo alignedRegion
      rw [if_neg hk0]
      simp only [List.zip_cons_cons, List.filter_cons, hbe, Bool.false_eq_true,
        if_false]
      exact htail

theorem shiftList_length (k : ℕ) (s : List Val) : (shiftList k s).length = s.length := by
  simp [shiftList]

theorem shiftList_getElem? (k : ℕ) (s : List Val) (n : ℕ) :
    (shiftList k s)[n]? =
      if n < s.length then some (if k ≤ n then (s[n - k]?).join else none) else none := by
  by_cases hn : n < s.length
  · rw [if_pos hn]
    have hlen : n < (List.replicate k (none : Val) ++ s).length := by
      simp; omega
    rw [shiftList, List.getElem?_take, if_pos hn]
    by_cases hkn : k ≤ n
    · rw [if_pos hkn]
      have h1 : ¬ n < (List.replicate k (none : Val)).length := by simp; omega
      rw [List.getElem?_append_right (by simpa using hkn)]
      simp only [List.length_replicate]
      have : n - k < s.length := by omega
      rw [List.getElem?_eq_getElem this]
      simp
    · rw [if_neg hkn]
      rw [List.getElem?_append_left (by simp; omega)]
      rw [List.getElem?_replicate, if_pos (by omega : n < k)]
  · rw [if_neg hn]
    exact List.getElem?_eq_none (by rw [shiftList_length]; omega)

theorem buildShift_getElem? (k : ℕ) (hk : 1 ≤ k) (s pre : List Val) (n : ℕ) :
    (buildShift k pre s)[n]? =
      if n < s.length then
        some (if k ≤ pre.length + n then ((pre ++ s)[pre.length + n - k]?).join else none)
      else none := by
  induction s generalizing pre n with
  | nil => simp [buildShift]
  | cons v rest ih =>
    match n with
    | 0 =>
      simp only [buildShift, List.getElem?_cons_zero, List.length_cons, Nat.add_zero,
        Nat.zero_lt_succ, if_pos]
      by_cases hkp : k ≤ pre.length
      · rw [if_pos hkp, if_pos hkp]
        have hlt : pre.length - k < pre.length := by omega
        rw [List.getElem?_append_left hlt]
      · rw [if_neg hkp, if_neg hkp]
    | Nat.succ m =>
      simp only [buildShift, List.getElem?_cons_succ, List.length_cons]
      rw [ih (pre ++ [v]) m]
      have e1 : (pre ++ [v]).length + m = pre.length + (m + 1) := by simp; omega
      have e2 : (pre ++ [v]) ++ rest = pre ++ v :: rest := by simp
      rw [e1, e2]
      simp only [Nat.succ_eq_add_one]
      exact if_congr (by omega) rfl rfl

theorem buildShift_eq_shift (k : ℕ) (hk : 1 ≤ k) (s : List Val) :
    buildShift k [] s = shiftList k s := by
  apply List.ext_getElem?
  intro n
  rw [buildShift_getElem? k hk s [] n, shiftList_getElem?]
  simp

/-- Central fact used across claims: on the sorted table the grouped
shift restricted to a kingdom equals the plain shift of the Series of
that kingdom — the lag column of a region is a pure function of the
Series of that region. -/
theorem groupedShift_region (k : ℕ) (hk : 1 ≤ k) (rows : List Row) (r : ℕ) :
    alignedRegion r rows (groupedShift k rows) = shiftList k (regionValues r rows) := by
  rw [groupedShift, go_aligned k hk rows _ r, buildShift_eq_shift k hk]

theorem LAGS_one_le (k : ℕ) (hk : k ∈ LAGS) : 1 ≤ k := by
  simp [LAGS] at hk
  omega

theorem lag_value_at (rows : List Row) (k : ℕ) (hk1 : 1 ≤ k) (r i : ℕ)
    (hki : k ≤ i) (hi : i < (regionValues r rows).length) :
    (alignedRegion r rows (groupedShift k rows))[i]? = (regionValues r rows)[i - k]? := by
  rw [groupedShift_region k hk1 rows r, shiftList_getElem?, if_pos hi, if_pos hki]
  rw [List.getElem?_eq_getElem (show i - k < (regionValues r rows).length by omega)]
  simp

/-- Claim C1: for every base feature, region and lag horizon k in LAGS,
the lag column restricted to the region is the pure backward shift of the
Series of that region: at in-region position i it equals the base value
at position i - k when k ≤ i, is undefined when i < k, never reads
another region, and depends on no element other than position i - k of
the same Series. -/
theorem grouped_lag_spec (rows rows₂ : List Row) (k : ℕ) (hk : k ∈ LAGS) (r i : ℕ) :
    alignedRegion r rows (groupedShift k rows) = shiftList k (regionValues r rows)
  ∧ (k ≤ i → i < (regionValues r rows).length →
      (alignedRegion r rows (groupedShift k rows))[i]? = (regionValues r rows)[i - k]?)
  ∧ (i < k → i < (regionValues r rows).length →
      (alignedRegion r rows (groupedShift k rows))[i]? = some none)
  ∧ (k ≤ i → i < (regionValues r rows).length → i < (regionValues r rows₂).length →
      (regionValues r rows₂)[i - k]? = (regionValues r rows)[i - k]? →
      (alignedRegion r rows₂ (groupedShift k rows₂))[i]?
        = (alignedRegion r rows (groupedShift k rows))[i]?) := by
  have hk1 : 1 ≤ k := LAGS_one_le k hk
  refine ⟨groupedShift_region k hk1 rows r, lag_value_at rows k hk1 r i, ?_, ?_⟩
  · intro hik hi
    rw [groupedShift_region k hk1 rows r, shiftList_getElem?, if_pos hi,
      if_neg (by omega)]
  · intro hki hi hi₂ hagree
    rw [lag_value_at rows₂ k hk1 r i hki hi₂, lag_value_at rows k hk1 r i hki hi, hagree]

/-- Witness for C1 at a concrete table: two kingdoms interleaved, lag 1,
kingdom 0, in-region position 1; also the two-run insensitivity at the
same position against a table mutated only above index i - k. -/
theorem grouped_lag_spec_inst :
    ((1 : ℕ) ∈ LAGS)
  ∧ (1 < (regionValues 0 [(0, some 1), (1, some 9), (0, some 2)]).length)
  ∧ (alignedRegion 0 [(0, some 1), (1, some 9), (0, some 2)]
        (groupedShift 1 [(0, some 1), (1, some 9), (0, some 2)]))[1]?
      = (regionValues 0 [(0, some 1), (1, some 9), (0, some 2)])[1 - 1]?
  ∧ (alignedRegion 0 [(0, some 1), (0, some 5)] (groupedShift 1 [(0, some 1), (0, some 5)]))[1]?
      = (alignedRegion 0 [(0, some 1), (1, some 9), (0, some 2)]
          (groupedShift 1 [(0, some 1), (1, some 9), (0, some 2)]))[1]? :=
  ⟨by decide, by decide,
    (grouped_lag_spec [(0, some 1), (1, some 9), (0, some 2)]
      [(0, some 1), (0, some 5)] 1 (by decide) 0 1).2.1 (le_refl 1) (by decide),
    (grouped_lag_spec [(0, some 1), (1, some 9), (0, some 2)]
      [(0, some 1), (0, some 5)] 1 (by decide) 0 1).2.2.2 (le_refl 1) (by decide)
      (by decide) (by decide)⟩

/-! Region isolation: lemmas for the two-run experiment. -/

theorem regionValues_removeRegion (a b : ℕ) (hab : a ≠ b) (rows : List Row) :
    regionValues a (removeRegion b rows) = regionValues a rows := by
  unfold regionValues removeRegion
  rw [List.filter_filter]
  refine congrArg (List.map Prod.snd) (List.filter_congr ?_)
  intro x _
  by_cases hx : x.1 = a
  · simp [hx, hab]
  · simp [hx]

theorem aligned_zipWith (r : ℕ) (f : Val → Val → Val) (rows : List Row) :
    ∀ (o₁ o₂ : List Val), o₁.length = rows.length → o₂.length = rows.length →
    alignedRegion r rows (List.zipWith f o₁ o₂)
      = List.zipWith f (alignedRegion r rows o₁) (alignedRegion r rows o₂) := by
  induction rows with
  | nil =>
    intro o₁ o₂ h₁ h₂
    simp [alignedRegion]
  | cons p rest ih =>
    intro o₁ o₂ h₁ h₂
    match o₁, o₂ with
    | x :: t₁, y :: t₂ =>
      simp only [List.length_cons] at h₁ h₂
      have hih := ih t₁ t₂ (by omega) (by omega)
      unfold alignedRegion at hih ⊢
      simp only [List.zipWith_cons_cons, List.zip_cons_cons, List.filter_cons]
      cases hp : (p.1 == r) with
      | true => simp only [if_pos, List.map_cons, List.zipWith_cons_cons, hih]
      | false => simpa using hih

/-- Claim C4 (amended part): lag columns and lag-difference columns of a
kingdom are identical whether the rows of another kingdom are present or
entirely removed. -/
theorem region_isolation_lag_delta (rows : List Row) (a b : ℕ) (hab : a ≠ b)
    (k k₁ k₂ : ℕ) (hk : k ∈ LAGS) (h₁ : 1 ≤ k₁) (h₂ : 1 ≤ k₂) :
    alignedRegion a (removeRegion b rows) (groupedShift k (removeRegion b rows))
      = alignedRegion a rows (groupedShift k rows)
  ∧ alignedRegion a (removeRegion b rows) (lagDiffCol k₁ k₂ (removeRegion b rows))
      = alignedRegion a rows (lagDiffCol k₁ k₂ rows) := by
  have hk1 : 1 ≤ k := LAGS_one_le k hk
  constructor
  · rw [groupedShift_region k hk1, groupedShift_region k hk1,
      regionValues_removeRegion a b hab]
  · unfold lagDiffCol
    rw [aligned_zipWith a optSub _ _ _ (groupedShift_length _ _) (groupedShift_length _ _),
      aligned_zipWith a optSub _ _ _ (groupedShift_length _ _) (groupedShift_length _ _),
      groupedShift_region k₁ h₁, groupedShift_region k₂ h₂,
      groupedShift_region k₁ h₁, groupedShift_region k₂ h₂,
      regionValues_removeRegion a b hab]

/-! Causality of the rolling engine: the value at a position never reads
the raw value of that position. -/

theorem groupedShiftGo_set_take (k : ℕ) (hk : 1 ≤ k) :
    ∀ (rows : List Row) (i : ℕ) (r : ℕ) (v v₀ : Val) (seen : ℕ → List Val),
      rows[i]? = some (r, v₀) →
      (groupedShiftGo k (rows.set i (r, v)) seen).take (i + 1)
        = (groupedShiftGo k rows seen).take (i + 1) := by
  intro rows
  induction rows with
  | nil =>
    intro i r v v₀ seen h
    simp at h
  | cons p rest ih =>
    intro i r v v₀ seen h
    match i with
    | 0 =>
      rw [List.getElem?_cons_zero] at h
      obtain rfl : p = (r, v₀) := by injection h
      rw [List.set_cons_zero]
      unfold groupedShiftGo
      rw [List.take_succ_cons, List.take_succ_cons,
        if_neg (show ¬ k = 0 by omega), if_neg (show ¬ k = 0 by omega)]
      simp
    | Nat.succ m =>
      rw [List.getElem?_cons_succ] at h
      rw [List.set_cons_succ]
      obtain ⟨r₀, v₁⟩ := p
      unfold groupedShiftGo
      rw [List.take_succ_cons, List.take_succ_cons]
      exact congrArg₂ List.cons rfl (ih m r v v₀ _ h)

theorem rollingStat_take (f : List ℚ → Val) (w i : ℕ) (s₁ s₂ : List Val)
    (hlen : s₁.length = s₂.length) (htake : s₁.take (i + 1) = s₂.take (i + 1)) :
    (rollingStat f w s₁)[i]? = (rollingStat f w s₂)[i]? := by
  have hw : windowVals w s₁ i = windowVals w s₂ i := by
    unfold windowVals
    rw [htake]
  unfold rollingStat
  rw [List.getElem?_map, List.getElem?_map, hlen]
  by_cases hlt : i < s₂.length
  · rw [List.getElem?_range hlt]
    simp only [Option.map_some']
    rw [hw]
  · rw [List.getElem?_eq_none (by simp [List.length_range]; omega)]
    simp

/-- Claim C2 (amended part): every rolling statistic of the source at
position i is computed from the lag-1 column only, hence replacing the
raw value of row i (keeping its kingdom) changes no rolling statistic at
position i. -/
theorem rolling_causal_spec (rows : List Row) (i r : ℕ) (v v₀ : Val)
    (h : rows[i]? = some (r, v₀)) (w : ℕ) (hw : w ∈ ROLLING_WINDOWS)
    (f : List ℚ → Val) (hf : f ∈ [meanQ, varQ, medianQ, minQ, maxQ]) :
    (rollColumn f w (rows.set i (r, v)))[i]? = (rollColumn f w rows)[i]? := by
  unfold rollColumn
  apply rollingStat_take
  · rw [groupedShift_length, groupedShift_length, List.length_set]
  · unfold groupedShift
    exact groupedShiftGo_set_take 1 (le_refl 1) rows i r v v₀ _ h

/-- Witness for the amended C2: replacing the raw value at position 1 of
a two-row kingdom leaves the rolling mean at position 1 unchanged. -/
theorem rolling_causal_inst :
    ([(0, some 1), (0, some 2)] : List Row)[1]? = some (0, some 2)
  ∧ ((3 : ℕ) ∈ ROLLING_WINDOWS)
  ∧ (rollColumn meanQ 3 (([(0, some 1), (0, some 2)] : List Row).set 1 (0, some 99)))[1]?
      = (rollColumn meanQ 3 [(0, some 1), (0, some 2)])[1]? :=
  ⟨by decide, by decide,
    rolling_causal_spec [(0, some 1), (0, some 2)] 1 0 (some 99) (some 2) (by decide) 3
      (by decide) meanQ (List.mem_cons_self _ _)⟩

/-- A five-row sorted table with two kingdoms: kingdom 0 with raw values
3, 5 followed by kingdom 1 with raw values 100, 200, 300. -/
def exFive : List Row := [(0, some 3), (0, some 5), (1, some 100), (1, some 200), (1, some 300)]

/-- Counterexample to C2 as stated: at in-region position 0 of kingdom 1
the rolling mean (w = 3, min_periods = 1) produced by the code is 3 — the
lag-1 value inherited from kingdom 0 through the flat rolling window —
while the trailing window of the shifted Series of kingdom 1 itself
contains no defined observation, so the claimed per-region statistic
would be undefined. -/
theorem rolling_region_window_cex :
    (alignedRegion 1 exFive (rollColumn meanQ 3 exFive))[0]? = some (some 3)
  ∧ windowVals 3 (shiftList 1 (regionValues 1 exFive)) 0 = []
  ∧ some (some (3 : ℚ)) ≠ some (none : Val) := by
  refine ⟨?_, ?_, by simp⟩
  · norm_num [alignedRegion, rollColumn, rollingStat, windowVals, meanQ, groupedShift,
      groupedShiftGo, minPeriods, exFive, List.range_succ, List.filterMap_cons,
      List.filterMap_nil]
    intro h
    simp at h
  · norm_num [windowVals, shiftList, regionValues, exFive, List.filterMap_cons]

/-- Counterexample to C4 as stated: the rolling-mean value of kingdom 1
at its first in-region position changes from 3 to undefined when the rows
of kingdom 0 are removed, so rolling features are not region-isolated. -/
theorem region_isolation_cex :
    (alignedRegion 1 (removeRegion 0 exFive) (rollColumn meanQ 3 (removeRegion 0 exFive)))[0]?
      = some none
  ∧ (alignedRegion 1 exFive (rollColumn meanQ 3 exFive))[0]? = some (some 3)
  ∧ some (none : Val) ≠ some (some (3 : ℚ)) := by
  refine ⟨?_, ?_, by simp⟩
  · norm_num [alignedRegion, rollColumn, rollingStat, windowVals, meanQ, groupedShift,
      groupedShiftGo, minPeriods, exFive, removeRegion, List.range_succ,
      List.filterMap_cons, List.filterMap_nil]
  · norm_num [alignedRegion, rollColumn, rollingStat, windowVals, meanQ, groupedShift,
      groupedShiftGo, minPeriods, exFive, List.range_succ, List.filterMap_cons,
      List.filterMap_nil]
    intro h
    simp at h

/-- Witness for the amended C4: on the two-kingdom table the lag and
lag-difference columns of kingdom 1 do not change when kingdom 0 is
removed. -/
theorem region_isolation_lag_delta_inst :
    ((1 : ℕ) ≠ 0) ∧ ((1 : ℕ) ∈ LAGS)
  ∧ alignedRegion 1 (removeRegion 0 exFive) (groupedShift 1 (removeRegion 0 exFive))
      = alignedRegion 1 exFive (groupedShift 1 exFive)
  ∧ alignedRegion 1 (removeRegion 0 exFive) (lagDiffCol 1 7 (removeRegion 0 exFive))
      = alignedRegion 1 exFive (lagDiffCol 1 7 exFive) :=
  ⟨by decide, by decide,
    (region_isolation_lag_delta exFive 1 0 (by decide) 1 1 7 (by decide)
      (le_refl 1) (by norm_num)).1,
    (region_isolation_lag_delta exFive 1 0 (by decide) 1 1 7 (by decide)
      (le_refl 1) (by norm_num)).2⟩

/-! Definedness of the rolling statistics. -/

theorem minPeriods_pos (w : ℕ) : 1 ≤ minPeriods w := le_max_left 1 _

theorem rollingStat_getElem (f : List ℚ → Val) (w : ℕ) (s : List Val) (i : ℕ)
    (hi : i < s.length) :
    (rollingStat f w s)[i]? =
      some (if minPeriods w ≤ (windowVals w s i).length then f (windowVals w s i) else none) := by
  unfold rollingStat
  rw [List.getElem?_map, List.getElem?_range hi]
  rfl

theorem meanQ_isSome (vs : List ℚ) : (meanQ vs).isSome ↔ vs ≠ [] := by
  unfold meanQ
  by_cases hv : vs = [] <;> simp [hv]

theorem medianQ_isSome (vs : List ℚ) : (medianQ vs).isSome ↔ vs ≠ [] := by
  simp only [medianQ]
  have hlen : (vs.insertionSort (fun a b => a ≤ b)).length = vs.length :=
    List.length_insertionSort _ _
  by_cases hv : vs = []
  · subst hv
    simp [List.insertionSort]
  · have h0 : 0 < vs.length := List.length_pos.mpr hv
    by_cases hodd : (vs.insertionSort (fun a b => a ≤ b)).length % 2 = 1
    · rw [if_pos hodd, List.getElem?_eq_getElem (by omega)]
      simp [hv]
    · rw [if_neg hodd,
        List.getElem?_eq_getElem (show (vs.insertionSort (fun a b => a ≤ b)).length / 2 - 1
          < (vs.insertionSort (fun a b => a ≤ b)).length by omega),
        List.getElem?_eq_getElem (show (vs.insertionSort (fun a b => a ≤ b)).length / 2
          < (vs.insertionSort (fun a b => a ≤ b)).length by omega)]
      simp [hv]

theorem minQ_isSome (vs : List ℚ) : (minQ vs).isSome ↔ vs ≠ [] := by
  cases vs <;> simp [minQ]

theorem maxQ_isSome (vs : List ℚ) : (maxQ vs).isSome ↔ vs ≠ [] := by
  cases vs <;> simp [maxQ]

theorem varQ_isSome (vs : List ℚ) : (varQ vs).isSome ↔ 2 ≤ vs.length := by
  unfold varQ
  by_cases h : vs.length ≤ 1
  · simp [h]
    omega
  · simp [h]
    omega

/-- Claim C3: a rolling statistic of window w is defined at a position of
the shifted column exactly when the trailing window there holds at least
max(1, w / 2) defined observations — including at exactly the threshold
count — except that the standard deviation (modelled by its square, the
sample variance) additionally needs at least 2 observations. -/
theorem rolling_min_periods_spec (s : List Val) (w i : ℕ)
    (hw : w ∈ ROLLING_WINDOWS) (hi : i < s.length) :
    (((rollingStat meanQ w s)[i]?).join.isSome ↔ minPeriods w ≤ (windowVals w s i).length)
  ∧ (((rollingStat medianQ w s)[i]?).join.isSome ↔ minPeriods w ≤ (windowVals w s i).length)
  ∧ (((rollingStat minQ w s)[i]?).join.isSome ↔ minPeriods w ≤ (windowVals w s i).length)
  ∧ (((rollingStat maxQ w s)[i]?).join.isSome ↔ minPeriods w ≤ (windowVals w s i).length)
  ∧ (((rollingStat varQ w s)[i]?).join.isSome ↔
      (minPeriods w ≤ (windowVals w s i).length ∧ 2 ≤ (windowVals w s i).length)) := by
  have hne : minPeriods w ≤ (windowVals w s i).length → windowVals w s i ≠ [] := by
    intro hc
    have := minPeriods_pos w
    exact List.ne_nil_of_length_pos (by omega)
  refine ⟨?_, ?_, ?_, ?_, ?_⟩ <;> rw [rollingStat_getElem _ w s i hi] <;>
    by_cases hc : minPeriods w ≤ (windowVals w s i).length
  · simp [hc, meanQ_isSome, hne hc]
  · simp [hc]
  · simp [hc, medianQ_isSome, hne hc]
  · simp [hc]
  · simp [hc, minQ_isSome, hne hc]
  · simp [hc]
  · simp [hc, maxQ_isSome, hne hc]
  · simp [hc]
  · simp [hc, varQ_isSome]
  · simp [hc]

/-- Witness for C3 at the boundary: shifted column with one defined value
inside the window, w = 3, min_periods = 1: the mean is defined at exactly
the threshold count while the variance (std) is not. -/
theorem rolling_min_periods_inst :
    ((3 : ℕ) ∈ ROLLING_WINDOWS)
  ∧ (1 < ([some 1, none] : List Val).length)
  ∧ (((rollingStat meanQ 3 [some 1, none])[1]?).join.isSome ↔
      minPeriods 3 ≤ (windowVals 3 [some 1, none] 1).length)
  ∧ (((rollingStat varQ 3 [some 1, none])[1]?).join.isSome ↔
      (minPeriods 3 ≤ (windowVals 3 [some 1, none] 1).length ∧
        2 ≤ (windowVals 3 [some 1, none] 1).length)) :=
  ⟨by decide, by decide,
    (rolling_min_periods_spec [some 1, none] 3 1 (by decide) (by decide)).1,
    (rolling_min_periods_spec [some 1, none] 3 1 (by decide) (by decide)).2.2.2.2⟩

/-- Claim C6: the temperature fix converts exactly the defined cells
strictly above 70 by subtracting 273.15, leaves every other cell
(including exactly 70 and undefined cells) unchanged, and acts cellwise
in place on the column. -/
theorem kelvin_heuristic_spec :
    (∀ x : ℚ, 70 < x → convertTemp (some x) = some (x - 27315 / 100))
  ∧ (∀ x : ℚ, x ≤ 70 → convertTemp (some x) = some x)
  ∧ convertTemp none = none
  ∧ convertTemp (some 70) = some 70
  ∧ convertTemp (some (700001 / 10000)) = some (700001 / 10000 - 27315 / 100)
  ∧ convertTemp (some (699999 / 10000)) = some (699999 / 10000)
  ∧ ∀ (col : List Val) (i : ℕ), (fixTempColumn col)[i]? = (col[i]?).map convertTemp := by
  refine ⟨?_, ?_, rfl, ?_, ?_, ?_, ?_⟩
  · intro x hx
    simp [convertTemp, kelvin_to_celsius, hx]
  · intro x hx
    simp [convertTemp, not_lt.mpr hx]
  · norm_num [convertTemp]
  · norm_num [convertTemp, kelvin_to_celsius]
  · norm_num [convertTemp]
  · intro col i
    simp [fixTempColumn]

/-- Witness for C6: the boundary cells 70.0001 and 69.9999 handled through
the general clauses of the theorem. -/
theorem kelvin_heuristic_inst :
    ((70 : ℚ) < 700001 / 10000 ∧
      convertTemp (some (700001 / 10000)) = some ((700001 : ℚ) / 10000 - 27315 / 100))
  ∧ ((699999 : ℚ) / 10000 ≤ 70 ∧
      convertTemp (some (699999 / 10000)) = some ((699999 : ℚ) / 10000)) :=
  ⟨⟨by norm_num, kelvin_heuristic_spec.1 (700001 / 10000) (by norm_num)⟩,
    ⟨by norm_num, kelvin_heuristic_spec.2.1 (699999 / 10000) (by norm_num)⟩⟩

/-- Claim C7: a lag-difference column is the cellwise difference of the
two lag columns, defined exactly where both operands are defined. -/
theorem lag_diff_spec (rows : List Row) (i k₁ k₂ : ℕ) (a b : ℚ) :
    ((groupedShift k₁ rows)[i]? = some (some a) → (groupedShift k₂ rows)[i]? = some (some b) →
      (lagDiffCol k₁ k₂ rows)[i]? = some (some (a - b)))
  ∧ ((groupedShift k₁ rows)[i]? = some none → i < rows.length →
      (lagDiffCol k₁ k₂ rows)[i]? = some none)
  ∧ ((groupedShift k₂ rows)[i]? = some none → i < rows.length →
      (lagDiffCol k₁ k₂ rows)[i]? = some none) := by
  refine ⟨?_, ?_, ?_⟩
  · intro h₁ h₂
    rw [lagDiffCol, List.getElem?_zipWith, h₁, h₂]
    rfl
  · intro h₁ hi
    have h₂ : ∃ y, (groupedShift k₂ rows)[i]? = some y := by
      rw [List.getElem?_eq_getElem (by rw [groupedShift_length]; omega)]
      exact ⟨_, rfl⟩
    obtain ⟨y, h₂⟩ := h₂
    rw [lagDiffCol, List.getElem?_zipWith, h₁, h₂]
    cases y <;> rfl
  · intro h₂ hi
    have h₁ : ∃ y, (groupedShift k₁ rows)[i]? = some y := by
      rw [List.getElem?_eq_getElem (by rw [groupedShift_length]; omega)]
      exact ⟨_, rfl⟩
    obtain ⟨y, h₁⟩ := h₁
    rw [lagDiffCol, List.getElem?_zipWith, h₁, h₂]
    cases y <;> rfl

/-- Witness for C7 reproducing the scenario of the claim: at position 7
of a single-kingdom table, lag_1 = 10 and lag_7 = 4 give difference 6,
while lag_30 is undefined so the lag_7 - lag_30 column is undefined. -/
theorem lag_diff_spec_inst :
    (groupedShift 1 [(0, some 4), (0, some 1), (0, some 1), (0, some 1), (0, some 1),
        (0, some 1), (0, some 10), (0, some 99)])[7]? = some (some 10)
  ∧ (groupedShift 7 [(0, some 4), (0, some 1), (0, some 1), (0, some 1), (0, some 1),
        (0, some 1), (0, some 10), (0, some 99)])[7]? = some (some 4)
  ∧ (lagDiffCol 1 7 [(0, some 4), (0, some 1), (0, some 1), (0, some 1), (0, some 1),
        (0, some 1), (0, some 10), (0, some 99)])[7]? = some (some (10 - 4 : ℚ))
  ∧ ((10 : ℚ) - 4 = 6)
  ∧ (groupedShift 30 [(0, some 4), (0, some 1), (0, some 1), (0, some 1), (0, some 1),
        (0, some 1), (0, some 10), (0, some 99)])[7]? = some none
  ∧ (lagDiffCol 7 30 [(0, some 4), (0, some 1), (0, some 1), (0, some 1), (0, some 1),
        (0, some 1), (0, some 10), (0, some 99)])[7]? = some none :=
  ⟨by decide, by decide,
    (lag_diff_spec [(0, some 4), (0, some 1), (0, some 1), (0, some 1), (0, some 1),
        (0, some 1), (0, some 10), (0, some 99)] 7 1 7 10 4).1 (by decide) (by decide),
    by norm_num,
    by decide,
    (lag_diff_spec [(0, some 4), (0, some 1), (0, some 1), (0, some 1), (0, some 1),
        (0, some 1), (0, some 10), (0, some 99)] 7 7 30 0 0).2.2 (by decide) (by decide)⟩

/-- Claim C9: when every training row of a target has an undefined target
value, training is skipped — the predictions do not depend on the
regressor at all — and every prediction of that target is 0. -/
theorem empty_training_spec (fit : List (List ℚ × ℚ) → List ℚ → ℚ)
    (trainRows : List (List ℚ × Val)) (tests : List (List ℚ))
    (h : dropNaTargets trainRows = []) :
    trainAndPredict fit trainRows tests = tests.map (fun _ => 0)
  ∧ ∀ i, i < tests.length → (trainAndPredict fit trainRows tests)[i]? = some 0 := by
  constructor
  · simp [trainAndPredict, h]
  · intro i hi
    simp [trainAndPredict, h]
    rw [List.getElem?_replicate, if_pos hi]

/-- Witness for C9: one training row with an undefined target and a
regressor that would predict 37 everywhere; the prediction is still 0. -/
theorem empty_training_inst :
    dropNaTargets [([1, 2], (none : Val))] = []
  ∧ trainAndPredict (fun _ _ => 37) [([1, 2], none)] [[5, 6]] = [0] := by
  refine ⟨by simp [dropNaTargets], ?_⟩
  rw [(empty_training_spec (fun _ _ => 37) [([1, 2], none)] [[5, 6]]
    (by simp [dropNaTargets])).1]
  simp

/-! Location mapping. -/

/-- One row of the combined table as seen by the location-mapping step:
kingdom, the is_test flag, and the two coordinate columns. -/
structure LRow where
  region : ℕ
  isTest : Bool
  lat : Val
  lon : Val
deriving DecidableEq

/-- The historical (is_test = 0) rows of a kingdom, in table order. -/
def histRows (rows : List LRow) (r : ℕ) : List LRow :=
  rows.filter (fun p => !p.isTest && p.region == r)

/-- pandas GroupBy.first on one column: the first non-null entry of the
column within the group (NaN entries are skipped), none if all are null. -/
def firstDefined (xs : List Val) : Val := (xs.filterMap id).head?

/-- Embedding of the location-mapping step: coord_map is built from the
historical rows via groupby(kingdom).first() and merged back with
how=left onto every row, replacing the original latitude and longitude
columns. -/
def mapCoords (rows : List LRow) : List LRow :=
  rows.map fun p =>
    { p with
      lat := firstDefined ((histRows rows p.region).map LRow.lat),
      lon := firstDefined ((histRows rows p.region).map LRow.lon) }

theorem firstDefined_eq_find (l : List LRow) (f : LRow → Val) :
    firstDefined (l.map f) = (l.find? fun q => (f q).isSome).bind f := by
  induction l with
  | nil => rfl
  | cons q t ih =>
    unfold firstDefined at *
    cases hq : f q with
    | none =>
      rw [List.map_cons, List.filterMap_cons]
      simp only [id, hq, List.find?_cons]
      rw [show ((none : Val).isSome) = false from rfl]
      exact ih
    | some a =>
      rw [List.map_cons, List.filterMap_cons]
      simp only [id, hq, List.find?_cons]
      rw [show ((some a : Val).isSome) = true from rfl]
      simp [hq]

/-- Claim C10 (amended): after the location-mapping step every row of a
kingdom carries, per column, the first defined latitude resp. longitude
among the historical rows of that kingdom (its own previous coordinates
are discarded), and rows of a kingdom with no historical rows get
undefined coordinates. -/
theorem coord_map_spec (rows : List LRow) (i : ℕ) (p : LRow) (h : rows[i]? = some p) :
    ((mapCoords rows)[i]?).map LRow.lat
      = some (((histRows rows p.region).find? (fun q => (q.lat).isSome)).bind LRow.lat)
  ∧ ((mapCoords rows)[i]?).map LRow.lon
      = some (((histRows rows p.region).find? (fun q => (q.lon).isSome)).bind LRow.lon)
  ∧ (histRows rows p.region = [] →
      ((mapCoords rows)[i]?).map LRow.lat = some none
    ∧ ((mapCoords rows)[i]?).map LRow.lon = some none) := by
  have hmap : (mapCoords rows)[i]? = some
      { p with
        lat := firstDefined ((histRows rows p.region).map LRow.lat),
        lon := firstDefined ((histRows rows p.region).map LRow.lon) } := by
    rw [mapCoords, List.getElem?_map, h]
    rfl
  refine ⟨?_, ?_, ?_⟩
  · rw [hmap, Option.map_some']
    show some (firstDefined ((histRows rows p.region).map LRow.lat)) = _
    rw [firstDefined_eq_find]
  · rw [hmap, Option.map_some']
    show some (firstDefined ((histRows rows p.region).map LRow.lon)) = _
    rw [firstDefined_eq_find]
  · intro hempty
    rw [hmap, Option.map_some', Option.map_some']
    simp [hempty, firstDefined]

/-- Witness for the amended C10 at a concrete table. -/
theorem coord_map_spec_inst :
    ([⟨0, false, none, some 5⟩, ⟨0, false, some 3, some 7⟩] : List LRow)[0]?
      = some ⟨0, false, none, some 5⟩
  ∧ ((mapCoords [⟨0, false, none, some 5⟩, ⟨0, false, some 3, some 7⟩])[0]?).map LRow.lat
      = some (((histRows [⟨0, false, none, some 5⟩, ⟨0, false, some 3, some 7⟩]
          (0 : ℕ)).find? (fun q => (q.lat).isSome)).bind LRow.lat) :=
  ⟨by decide,
    (coord_map_spec [⟨0, false, none, some 5⟩, ⟨0, false, some 3, some 7⟩] 0
      ⟨0, false, none, some 5⟩ (by decide)).1⟩

/-- Counterexample to C10 as stated: the first historical row of kingdom
0 has an undefined latitude, yet after the mapping every row of the
kingdom carries latitude 3, the first non-null latitude of the group —
GroupBy.first skips nulls per column, it does not take the first row. -/
theorem coord_overwrite_cex :
    ((mapCoords [⟨0, false, none, some 5⟩, ⟨0, false, some 3, some 7⟩])[0]?).map LRow.lat
      = some (some 3)
  ∧ (([⟨0, false, none, some 5⟩, ⟨0, false, some 3, some 7⟩] : List LRow)[0]?).map LRow.lat
      = some none
  ∧ some (some (3 : ℚ)) ≠ some (none : Val) := by
  refine ⟨by decide, by decide, by simp⟩

/-! Canonical ordering. -/

/-- One Observation as seen by the canonical sort: the kingdom key, the
composed calendar date (undefined when the calendar composition failed),
and a measured value standing for the remaining fields. -/
structure SRow where
  region : ℕ
  date : Option ℕ
  data : Val

/-- Rank of a date cell under na_position=first: undefined sorts first. -/
def dateRank : Option ℕ → ℕ
  | none => 0
  | some _ => 1

/-- Numeric value of a defined date cell. -/
def dateVal : Option ℕ → ℕ
  | none => 0
  | some d => d

/-- The lexicographic sort key of sort_values([kingdom, datetime],
na_position=first) on an index-tagged row; the trailing original index
makes the key total and encodes the stability of the underlying lexsort. -/
def sortKey (p : ℕ × SRow) : Lex (ℕ × Lex (ℕ × Lex (ℕ × ℕ))) :=
  toLex (p.2.region, toLex (dateRank p.2.date, toLex (dateVal p.2.date, p.1)))

/-- Comparison of two index-tagged rows by their sort key. -/
def rowLe (a b : ℕ × SRow) : Prop := sortKey a ≤ sortKey b

instance : DecidableRel rowLe :=
  fun a b => inferInstanceAs (Decidable (sortKey a ≤ sortKey b))

instance : IsTotal (ℕ × SRow) rowLe :=
  ⟨fun a b => le_total (sortKey a) (sortKey b)⟩

instance : IsTrans (ℕ × SRow) rowLe :=
  ⟨fun _ _ _ hab hbc => le_trans hab hbc⟩

/-- The sorted table with the original row indices still attached. -/
def canonicalEnum (rows : List SRow) : List (ℕ × SRow) :=
  List.insertionSort rowLe rows.enum

/-- Embedding of the canonical sort of the pipeline: stable sort of all
Observations by (kingdom, date) ascending with undefined dates first. -/
def canonicalSort (rows : List SRow) : List SRow :=
  (canonicalEnum rows).map Prod.snd

theorem rowLe_elim (a b : ℕ × SRow) (h : rowLe a b) :
    a.2.region < b.2.region
  ∨ (a.2.region = b.2.region ∧
      (dateRank a.2.date < dateRank b.2.date
       ∨ (dateRank a.2.date = dateRank b.2.date ∧
          (dateVal a.2.date < dateVal b.2.date
           ∨ (dateVal a.2.date = dateVal b.2.date ∧ a.1 ≤ b.1))))) := by
  unfold rowLe sortKey at h
  simp only [Prod.Lex.le_iff] at h
  exact h

/-- Claim C8: the canonical ordering is a permutation of the input rows,
sorted by (kingdom, date) ascending with undefined dates first within a
kingdom, and stable: rows with equal (kingdom, date) keys keep their
original relative order (original indices strictly increase along equal
keys). -/
theorem canonical_sort_spec (rows : List SRow) :
    (canonicalSort rows).Perm rows
  ∧ (canonicalSort rows).Pairwise (fun a b =>
      a.region < b.region
      ∨ (a.region = b.region ∧
          (a.date = none ∨ ∃ da db, a.date = some da ∧ b.date = some db ∧ da ≤ db)))
  ∧ (canonicalEnum rows).Pairwise (fun p q =>
      p.2.region = q.2.region → p.2.date = q.2.date → p.1 < q.1) := by
  have hsorted : List.Pairwise rowLe (canonicalEnum rows) :=
    List.sorted_insertionSort rowLe rows.enum
  have hperm : (canonicalEnum rows).Perm rows.enum :=
    List.perm_insertionSort rowLe rows.enum
  refine ⟨?_, ?_, ?_⟩
  · have h1 := hperm.map Prod.snd
    rw [List.enum_map_snd] at h1
    exact h1
  · rw [canonicalSort, List.pairwise_map]
    refine hsorted.imp ?_
    intro a b hab
    rcases rowLe_elim a b hab with h | ⟨heq, hrest⟩
    · exact Or.inl h
    · refine Or.inr ⟨heq, ?_⟩
      cases hda : a.2.date with
      | none => exact Or.inl rfl
      | some da =>
        cases hdb : b.2.date with
        | none =>
          rw [hda, hdb] at hrest
          simp [dateRank] at hrest
        | some db =>
          rw [hda, hdb] at hrest
          simp only [dateRank, dateVal] at hrest
          exact Or.inr ⟨da, db, rfl, rfl, by omega⟩
  · have hnodup : ((canonicalEnum rows).map Prod.fst).Nodup := by
      rw [(hperm.map Prod.fst).nodup_iff, List.enum_map_fst]
      exact List.nodup_range _
    have hne : List.Pairwise (fun p q : ℕ × SRow => p.1 ≠ q.1) (canonicalEnum rows) :=
      List.pairwise_map.mp hnodup
    refine (hsorted.and hne).imp ?_
    intro p q hpq hreg hdate
    obtain ⟨hle, hneq⟩ := hpq
    rcases rowLe_elim p q hle with h | ⟨_, hrest⟩
    · rw [hreg] at h
      exact absurd h (lt_irrefl _)
    · rw [hdate] at hrest
      have hle2 : p.1 ≤ q.1 := by
        rcases hrest with h | ⟨_, h2⟩
        · exact absurd h (lt_irrefl _)
        · rcases h2 with h | ⟨_, h3⟩
          · exact absurd h (lt_irrefl _)
          · exact h3
      omega

/-! Wind-direction reconstruction, idealised over the reals. -/

/-- numpy arctan2(y, x): the angle of the point (x, y) in (-pi, pi],
which is the argument of the complex number x + y i (arctan2(0, 0) = 0
matches the Mathlib convention arg 0 = 0). -/
noncomputable def atan2 (y x : ℝ) : ℝ := Complex.arg (↑x + ↑y * Complex.I)

/-- numpy rad2deg. -/
noncomputable def deg (r : ℝ) : ℝ := r * 180 / Real.pi

/-- numpy deg2rad. -/
noncomputable def rad (d : ℝ) : ℝ := d * Real.pi / 180

/-- numpy mod 360 on the reals: x - 360 * floor(x / 360). -/
noncomputable def mod360 (x : ℝ) : ℝ := x - 360 * ⌊x / 360⌋

/-- The reconstruction of the predicted wind direction:
degrees(arctan2(sin_pred, cos_pred)) mod 360. -/
noncomputable def reconstructDir (s c : ℝ) : ℝ := mod360 (deg (atan2 s c))

theorem mod360_bounds (x : ℝ) : 0 ≤ mod360 x ∧ mod360 x < 360 := by
  have h1 : mod360 x = 360 * Int.fract (x / 360) := by
    rw [mod360, Int.fract]
    have h360 : (360 : ℝ) ≠ 0 := by norm_num
    field_simp
  constructor
  · rw [h1]
    exact mul_nonneg (by norm_num) (Int.fract_nonneg _)
  · rw [h1]
    nlinarith [Int.fract_lt_one (x / 360), Int.fract_nonneg (x / 360)]

theorem atan2_sin_cos (θ : ℝ) (h1 : -Real.pi < θ) (h2 : θ ≤ Real.pi) :
    atan2 (Real.sin θ) (Real.cos θ) = θ := by
  unfold atan2
  rw [Complex.ofReal_cos, Complex.ofReal_sin,
    Complex.arg_cos_add_sin_mul_I (Set.mem_Ioc.mpr ⟨h1, h2⟩)]

/-- Claim C5: reconstructing a direction d in [0, 360) from its exact
sine and cosine returns d, and the reconstruction of an arbitrary (not
necessarily unit-norm) sine/cosine pair always lies in [0, 360). -/
theorem wind_direction_reconstruct_spec :
    (∀ d : ℝ, 0 ≤ d → d < 360 → reconstructDir (Real.sin (rad d)) (Real.cos (rad d)) = d)
  ∧ (∀ s c : ℝ, 0 ≤ reconstructDir s c ∧ reconstructDir s c < 360) := by
  have hπ := Real.pi_pos
  constructor
  · intro d h0 h1
    unfold reconstructDir rad
    by_cases hd : d ≤ 180
    · rw [atan2_sin_cos (d * Real.pi / 180)
        (by nlinarith [mul_nonneg h0 hπ.le])
        (by nlinarith [mul_nonneg (sub_nonneg.mpr hd) hπ.le])]
      have hdeg : deg (d * Real.pi / 180) = d := by
        unfold deg
        field_simp
      rw [hdeg, mod360]
      have hfl : ⌊d / 360⌋ = 0 := by
        rw [Int.floor_eq_zero_iff]
        refine Set.mem_Ico.mpr ⟨by positivity, ?_⟩
        rw [div_lt_one (by norm_num)]
        linarith
      rw [hfl]
      simp
    · push_neg at hd
      rw [(Real.sin_sub_two_pi (d * Real.pi / 180)).symm,
        (Real.cos_sub_two_pi (d * Real.pi / 180)).symm,
        atan2_sin_cos (d * Real.pi / 180 - 2 * Real.pi)
          (by nlinarith [mul_pos (sub_pos.mpr hd) hπ])
          (by nlinarith [mul_pos (sub_pos.mpr h1) hπ])]
      have hdeg : deg (d * Real.pi / 180 - 2 * Real.pi) = d - 360 := by
        unfold deg
        field_simp
        ring
      rw [hdeg, mod360]
      have hfl : ⌊(d - 360) / 360⌋ = -1 := by
        rw [Int.floor_eq_iff]
        constructor
        · push_cast
          rw [le_div_iff₀ (by norm_num : (0:ℝ) < 360)]
          linarith
        · push_cast
          rw [div_lt_iff₀ (by norm_num : (0:ℝ) < 360)]
          linarith
      rw [hfl]
      push_cast
      ring
  · intro s c
    exact mod360_bounds _

/-- Witness for C5: the round trip at d = 90 and the range statement at
the non-unit pair (3, -4). -/
theorem wind_direction_reconstruct_inst :
    ((0 : ℝ) ≤ 90 ∧ (90 : ℝ) < 360 ∧
      reconstructDir (Real.sin (rad 90)) (Real.cos (rad 90)) = 90)
  ∧ (0 ≤ reconstructDir 3 (-4) ∧ reconstructDir 3 (-4) < 360) :=
  ⟨⟨by norm_num, by norm_num,
    wind_direction_reconstruct_spec.1 90 (by norm_num) (by norm_num)⟩,
    wind_direction_reconstruct_spec.2 3 (-4)⟩

end DataCrunch
